import Mathlib

/-!
Verification development for the tsc-simulator repository.

The Rust sources (src/src/math.rs and src/src/main.rs) are embedded shallowly:
machine integers become Nat with explicit bounds and explicit `% 2 ^ 64` where a
truncating cast occurs, i64/i128 values become Int, and fallible functions return
a three-valued result distinguishing a returned value, a returned error
(anyhow::Result::Err) and a panic (failed assert, or an arithmetic fault of a
debug build such as add overflow or division by zero).
-/

namespace TscSimulator

/-- Result of a Rust function in the embedding: a returned value, a returned
anyhow error, or a panic (failed assert or arithmetic fault). -/
inductive RustResult (α : Type) where
  | ok (val : α)
  | error
  | panic
deriving DecidableEq

/-- Propagation of errors and panics, as done by the question-mark operator for
errors and by unwinding for panics. -/
def RustResult.bind {α β : Type} : RustResult α → (α → RustResult β) → RustResult β
  | .ok a, f => f a
  | .error, _ => .error
  | .panic, _ => .panic

/-- Constant NS_PER_SEC from src/src/math.rs line 9. -/
def NS_PER_SEC : Nat := 1000000000

/-- Constant HZ_PER_KHZ from src/src/math.rs line 11. -/
def HZ_PER_KHZ : Nat := 1000

/-- Constant INT_SIZE_INTEL from src/src/math.rs line 3. -/
def INT_SIZE_INTEL : Nat := 16

/-- Constant FRAC_SIZE_INTEL from src/src/math.rs line 4. -/
def FRAC_SIZE_INTEL : Nat := 48

/-- Constant INT_SIZE_AMD from src/src/math.rs line 6. -/
def INT_SIZE_AMD : Nat := 8

/-- Constant FRAC_SIZE_AMD from src/src/math.rs line 7. -/
def FRAC_SIZE_AMD : Nat := 32

/-- Embedding of fixed_point_int_size_64 (src/src/math.rs lines 16-31). The
two asserts on frac_size and the assert on int_size + frac_size are modelled
as panic. Addition is mathematical Nat addition; a u8 overflow of
int_size + frac_size in Rust is itself a panic in debug builds and implies
the sum exceeds 64, so the single panic branch covers it. -/
def fixed_point_int_size_64 (frac_size : Nat) (int_opt : Option Nat) : RustResult Nat :=
  if frac_size > 0 then
    if frac_size < 64 then
      let int_size := match int_opt with
        | some i => i
        | none => 64 - frac_size
      if int_size + frac_size ≤ 64 then .ok int_size else .panic
    else .panic
  else .panic

/-- Embedding of fixed_point_overflow (src/src/math.rs lines 34-39): true when
val overflows int_size + frac_size bits. The u128 complement of a value x is
2 ^ 128 - 1 - x. -/
def fixed_point_overflow (val int_size frac_size : Nat) : Bool :=
  let n_unused_bits := 64 + (64 - int_size - frac_size)
  let mask := (2 ^ 128 - 1) - ((2 ^ 128 - 1) >>> n_unused_bits)
  val &&& mask != 0

/-- Embedding of overflow_64 (src/src/math.rs lines 42-46): true when val
overflows 64 bits. -/
def overflow_64 (val : Nat) : Bool :=
  let mask := (2 ^ 128 - 1) - ((2 ^ 128 - 1) >>> 64)
  val &&& mask != 0

/-- Embedding of freq_multiplier (src/src/math.rs lines 53-78). The two
assert_ne checks are panics. The u128 product 2 ^ frac_size * guest_khz never
wraps (frac_size < 64 and guest_khz fits u32), so plain Nat arithmetic is
exact; the final `multiplier as u64` cast is the explicit mod. -/
def freq_multiplier (guest_khz host_khz frac_size : Nat) (int_opt : Option Nat) :
    RustResult Nat :=
  if guest_khz = 0 then .panic
  else if host_khz = 0 then .panic
  else
    (fixed_point_int_size_64 frac_size int_opt).bind fun int_size =>
      let scaling_factor := 2 ^ frac_size
      let multiplier := scaling_factor * guest_khz / host_khz
      if fixed_point_overflow multiplier int_size frac_size then .error
      else .ok (multiplier % 2 ^ 64)

/-- Embedding of calc_tsc_offset (src/src/math.rs lines 89-127). The value
host_tsc_scaled is a u128; its `as u64` cast before the comparison is the
explicit mod. The negation -(diff as i64) is exact because the branch
requires bit 63 of diff to be clear. -/
def calc_tsc_offset (initial_host_tsc initial_guest_tsc multiplier frac_size : Nat)
    (int_opt : Option Nat) : RustResult Int :=
  (fixed_point_int_size_64 frac_size int_opt).bind fun _int_size =>
    let host_tsc_scaled := (initial_host_tsc * multiplier) >>> frac_size
    if overflow_64 host_tsc_scaled then .error
    else
      let scaled_u64 := host_tsc_scaled % 2 ^ 64
      let dn : Nat × Bool :=
        if scaled_u64 ≥ initial_guest_tsc then (scaled_u64 - initial_guest_tsc, true)
        else (initial_guest_tsc - scaled_u64, false)
      if (dn.1 &&& (1 <<< 63)) != 0 then .error
      else .ok (if dn.2 then -(dn.1 : Int) else (dn.1 : Int))

/-- Embedding of tsc_offset (src/src/math.rs lines 138-154). -/
def tsc_offset (initial_host_tsc initial_guest_tsc guest_khz host_khz frac_size : Nat)
    (int_opt : Option Nat) : RustResult Int :=
  (freq_multiplier guest_khz host_khz frac_size int_opt).bind fun multiplier =>
    calc_tsc_offset initial_host_tsc initial_guest_tsc multiplier frac_size int_opt

/-- Embedding of guest_tsc (src/src/math.rs lines 167-209). The i128 sum of
host_tsc_scaled (checked below 2 ^ 64) and the i64 offset cannot overflow
i128, so it is plain Int addition; `guest_tsc as u128` is the nonnegative
residue mod 2 ^ 128 and `guest_tsc as u64` the residue mod 2 ^ 64. -/
def guest_tsc (initial_host_tsc initial_guest_tsc host_khz guest_khz cur_host_tsc
    frac_size : Nat) (int_opt : Option Nat) : RustResult Nat :=
  (freq_multiplier guest_khz host_khz frac_size int_opt).bind fun fm =>
    (calc_tsc_offset initial_host_tsc initial_guest_tsc fm frac_size int_opt).bind
      fun off =>
      (fixed_point_int_size_64 frac_size int_opt).bind fun _int_size =>
        let host_tsc_scaled := (cur_host_tsc * fm) >>> frac_size
        if overflow_64 host_tsc_scaled then .error
        else
          let gtsc : Int := (host_tsc_scaled : Int) + off
          let mask : Nat := (2 ^ 128 - 1) - ((2 ^ 128 - 1) >>> 64)
          if (mask &&& (gtsc % (2 ^ 128)).toNat) != 0 then .error
          else .ok (gtsc % (2 ^ 64)).toNat

/-- Embedding of tsc_incr (src/src/math.rs lines 212-215). The u64 product
freq_khz * HZ_PER_KHZ never wraps for a u32 frequency; the u64 sum panics on
overflow in a debug build (it wraps in release, and in either build it does
not return an error value). -/
def tsc_incr (tsc freq_khz : Nat) : RustResult Nat :=
  let freq_hz := freq_khz * HZ_PER_KHZ
  if tsc + freq_hz < 2 ^ 64 then .ok (tsc + freq_hz) else .panic

/-- Embedding of hrtime (src/src/math.rs lines 218-223). The u128 product is
truncated to u64 before the division; division by a zero frequency panics. -/
def hrtime (tsc freq_hz : Nat) : RustResult Nat :=
  let product := tsc * NS_PER_SEC
  if freq_hz = 0 then .panic
  else .ok (product % 2 ^ 64 / freq_hz)

/-- Embedding of tsc (src/src/math.rs lines 226-231). The u128 product is
truncated to u64 before the division by NS_PER_SEC. -/
def tsc (hrtime freq_hz : Nat) : RustResult Nat :=
  let product := hrtime * freq_hz
  .ok (product % 2 ^ 64 / NS_PER_SEC)

/-- Host specification for the simulator (src/src/main.rs lines 65-70). -/
structure HostDef where
  start : Nat
  host_tsc : Nat
  host_freq : Nat
deriving DecidableEq

/-- Architecture selector of the simulator (src/src/main.rs lines 18-22). -/
inductive Arch where
  | amd
  | intel
deriving DecidableEq

/-- Inner loop of cmd_simulate (src/src/main.rs lines 218-246), iterating
`for t in start..=end`. The argument n is the number of remaining
iterations, t and cur_host_tsc the loop-carried values, cur_guest_tsc the
value of the mutable variable on entry (returned unchanged when the loop body
never runs). Produces the printed rows (t, cur_guest_tsc, cur_host_tsc) and
the final cur_guest_tsc. A guest_tsc error aborts the whole simulation (the
Rust code returns after printing the error); tsc_incr runs after every
iteration, including the last. Note that main.rs hands its 64-bit Hz
frequencies to the kHz-named 32-bit parameters of math.rs; the embedding
keeps them as plain Nat exactly as they flow in the source. -/
def simSegment (start_host_tsc start_guest_tsc host_hz guest_hz frac_size : Nat)
    (int_opt : Option Nat) :
    Nat → Nat → Nat → Nat → RustResult (List (Nat × Nat × Nat) × Nat)
  | _, _, cur_guest_tsc, 0 => .ok ([], cur_guest_tsc)
  | t, cur_host_tsc, _, n + 1 =>
    (guest_tsc start_host_tsc start_guest_tsc host_hz guest_hz cur_host_tsc
        frac_size int_opt).bind fun g =>
      (tsc_incr cur_host_tsc host_hz).bind fun next_host =>
        (simSegment start_host_tsc start_guest_tsc host_hz guest_hz frac_size
            int_opt (t + 1) next_host g n).bind fun rest =>
          .ok ((t, g, cur_host_tsc) :: rest.1, rest.2)

/-- Outer loop of cmd_simulate over the hosts (src/src/main.rs lines 195-249).
The end time of a segment is the next host's start, or the duration for the
last host; the iteration count of `start..=end` is end + 1 - start. After a
segment, start_guest_tsc becomes the last computed guest TSC. -/
def cmd_simulate_hosts (duration guest_hz frac_size : Nat) (int_opt : Option Nat) :
    Nat → List HostDef → RustResult (List (Nat × Nat × Nat))
  | _, [] => .ok []
  | cur_guest_tsc, h :: rest =>
    let endT := match rest with
      | [] => duration
      | h2 :: _ => h2.start
    (simSegment h.host_tsc cur_guest_tsc h.host_freq guest_hz frac_size int_opt
        h.start h.host_tsc cur_guest_tsc (endT + 1 - h.start)).bind fun seg =>
      (cmd_simulate_hosts duration guest_hz frac_size int_opt seg.2 rest).bind
        fun rows => .ok (seg.1 ++ rows)

/-- Embedding of cmd_simulate (src/src/main.rs lines 169-250): assert on a
nonempty host list, format chosen by architecture, guest starts at TSC 0. -/
def cmd_simulate (duration guest_hz : Nat) (hosts : List HostDef) (arch : Arch) :
    RustResult (List (Nat × Nat × Nat)) :=
  if hosts.length > 0 then
    let fmt := match arch with
      | .amd => (INT_SIZE_AMD, FRAC_SIZE_AMD)
      | .intel => (INT_SIZE_INTEL, FRAC_SIZE_INTEL)
    cmd_simulate_hosts duration guest_hz fmt.2 (some fmt.1) 0 hosts
  else .panic

/-! ### Arithmetic characterization of the bit masks -/

lemma mul_sub_one_div (a b : Nat) (ha : 0 < a) (hb : 0 < b) :
    (a * b - 1) / a = b - 1 := by
  obtain ⟨c, rfl⟩ := Nat.exists_eq_add_of_le hb
  have h1 : a * (1 + c) - 1 = a * c + (a - 1) := by
    rw [Nat.mul_add, Nat.mul_one]
    generalize a * c = d
    omega
  rw [h1, Nat.mul_add_div ha, Nat.div_eq_of_lt (by omega)]
  omega

lemma two_pow_sub_one_shiftRight (n k : Nat) (h : k ≤ n) :
    (2 ^ n - 1) >>> (n - k) = 2 ^ k - 1 := by
  rw [Nat.shiftRight_eq_div_pow]
  have h2 : (2 : Nat) ^ n = 2 ^ (n - k) * 2 ^ k := by
    rw [← Nat.pow_add]
    congr 1
    omega
  rw [h2]
  exact mul_sub_one_div _ _ (Nat.two_pow_pos _) (Nat.two_pow_pos _)

lemma mask_eq_two_pow_sub (n k : Nat) (h : k ≤ n) :
    (2 ^ n - 1) - ((2 ^ n - 1) >>> (n - k)) = 2 ^ n - 2 ^ k := by
  rw [two_pow_sub_one_shiftRight n k h]
  have h1 : (2 : Nat) ^ k ≤ 2 ^ n := Nat.pow_le_pow_right (by norm_num) h
  have h2 := Nat.two_pow_pos k
  omega

lemma two_pow_sub_eq_shiftLeft (n k : Nat) (h : k ≤ n) :
    2 ^ n - 2 ^ k = (2 ^ (n - k) - 1) <<< k := by
  rw [Nat.shiftLeft_eq, Nat.sub_mul, Nat.one_mul, ← Nat.pow_add]
  have h1 : n - k + k = n := by omega
  rw [h1]

lemma testBit_high_mask (n k i : Nat) (h : k ≤ n) :
    (2 ^ n - 2 ^ k).testBit i = (decide (k ≤ i) && decide (i < n)) := by
  rw [two_pow_sub_eq_shiftLeft n k h, Nat.testBit_shiftLeft,
    Nat.testBit_two_pow_sub_one]
  rcases Nat.lt_or_ge i k with hik | hik
  · have h1 : ¬ (i ≥ k) := by omega
    have h2 : ¬ (k ≤ i) := by omega
    simp [h1, h2]
  · have h2 : (i - k < n - k) ↔ (i < n) := by omega
    simp [hik, h2]

lemma land_high_mask_eq_zero_iff (val k n : Nat) (hval : val < 2 ^ n) (hk : k ≤ n) :
    (val &&& (2 ^ n - 2 ^ k) = 0) ↔ val < 2 ^ k := by
  constructor
  · intro h0
    by_contra hge
    push_neg at hge
    obtain ⟨i, hik, hbit⟩ := Nat.ge_two_pow_implies_high_bit_true hge
    have hin : i < n := by
      by_contra hni
      push_neg at hni
      have h1 : (2 : Nat) ^ n ≤ 2 ^ i := Nat.pow_le_pow_right (by norm_num) hni
      have h2 := Nat.testBit_implies_ge hbit
      omega
    have hb : (val &&& (2 ^ n - 2 ^ k)).testBit i = true := by
      rw [Nat.testBit_and, hbit, testBit_high_mask n k i hk]
      simp [hik, hin]
    rw [h0, Nat.zero_testBit] at hb
    exact Bool.noConfusion hb
  · intro hlt
    apply Nat.eq_of_testBit_eq
    intro i
    rw [Nat.testBit_and, testBit_high_mask n k i hk, Nat.zero_testBit]
    rcases Nat.lt_or_ge i k with hik | hik
    · have h1 : ¬ (k ≤ i) := by omega
      simp [h1]
    · have h1 : val.testBit i = false :=
        Nat.testBit_lt_two_pow
          (Nat.lt_of_lt_of_le hlt (Nat.pow_le_pow_right (by norm_num) hik))
      simp [h1]

lemma overflow_64_eq_true_iff (val : Nat) (h : val < 2 ^ 128) :
    overflow_64 val = true ↔ 2 ^ 64 ≤ val := by
  have hm := mask_eq_two_pow_sub 128 64 (by norm_num)
  have h64 : (128 : Nat) - 64 = 64 := by norm_num
  rw [h64] at hm
  have hland := land_high_mask_eq_zero_iff val 64 128 h (by norm_num)
  simp only [overflow_64, hm, bne_iff_ne, ne_eq]
  constructor
  · intro hne
    by_contra hlt
    push_neg at hlt
    exact hne (hland.mpr hlt)
  · intro hge hz
    have := hland.mp hz
    omega

lemma overflow_64_eq_false_iff (val : Nat) (h : val < 2 ^ 128) :
    overflow_64 val = false ↔ val < 2 ^ 64 := by
  have h1 := overflow_64_eq_true_iff val h
  constructor
  · intro h2
    by_contra h3
    push_neg at h3
    rw [h1.mpr h3] at h2
    exact Bool.noConfusion h2
  · intro h2
    by_contra h3
    have h4 := h1.mp (by revert h3; cases overflow_64 val <;> simp)
    omega

lemma fixed_point_overflow_eq_true_iff (val i f : Nat) (hval : val < 2 ^ 128)
    (hif : i + f ≤ 64) :
    fixed_point_overflow val i f = true ↔ 2 ^ (i + f) ≤ val := by
  have hn : 64 + (64 - i - f) = 128 - (i + f) := by omega
  have hm := mask_eq_two_pow_sub 128 (i + f) (by omega)
  have hland := land_high_mask_eq_zero_iff val (i + f) 128 hval (by omega)
  simp only [fixed_point_overflow, hn, hm, bne_iff_ne, ne_eq]
  constructor
  · intro hne
    by_contra hlt
    push_neg at hlt
    exact hne (hland.mpr hlt)
  · intro hge hz
    have := hland.mp hz
    omega

/-! ### Inversion helpers for the embedded functions -/

lemma fixed_point_int_size_64_eq (f : Nat) (io : Option Nat) :
    fixed_point_int_size_64 f io =
      if 0 < f ∧ f < 64 ∧ io.getD (64 - f) + f ≤ 64 then .ok (io.getD (64 - f))
      else .panic := by
  cases io <;>
    simp only [fixed_point_int_size_64, Option.getD_none, Option.getD_some, gt_iff_lt] <;>
    split_ifs <;> first | rfl | omega

lemma fixed_point_int_size_64_ok {f : Nat} {io : Option Nat} {i : Nat}
    (h : fixed_point_int_size_64 f io = .ok i) :
    0 < f ∧ f < 64 ∧ i + f ≤ 64 ∧ i = io.getD (64 - f) := by
  rw [fixed_point_int_size_64_eq] at h
  split_ifs at h with hc
  cases h
  exact ⟨hc.1, hc.2.1, hc.2.2, rfl⟩

lemma pow_mul_div_lt (g f : Nat) (hg : g < 2 ^ 32) (hf : f < 64) (h : Nat) :
    2 ^ f * g / h < 2 ^ 128 := by
  have hb1 : (2 : Nat) ^ f ≤ 2 ^ 63 := Nat.pow_le_pow_right (by norm_num) (by omega)
  have hb2 : 2 ^ f * g ≤ 2 ^ 63 * g := Nat.mul_le_mul_right g hb1
  have hb3 : (2 : Nat) ^ 63 * g ≤ 2 ^ 63 * 2 ^ 32 :=
    Nat.mul_le_mul_left (2 ^ 63) (by omega)
  have hb4 := Nat.div_le_self (2 ^ f * g) h
  have hb5 : (2 : Nat) ^ 63 * 2 ^ 32 < 2 ^ 128 := by norm_num
  omega

lemma freq_multiplier_ok_lt {g h f : Nat} {io : Option Nat} {v : Nat}
    (hv : freq_multiplier g h f io = .ok v) : v < 2 ^ 64 := by
  simp only [freq_multiplier] at hv
  split_ifs at hv
  cases hfp : fixed_point_int_size_64 f io <;> rw [hfp] at hv <;>
    simp only [RustResult.bind] at hv
  · split_ifs at hv
    cases hv
    exact Nat.mod_lt _ (Nat.two_pow_pos 64)
  · exact RustResult.noConfusion hv
  · exact RustResult.noConfusion hv

lemma freq_multiplier_ok_val {g h f : Nat} {io : Option Nat} {v : Nat}
    (hg : g < 2 ^ 32)
    (hv : freq_multiplier g h f io = .ok v) : v = 2 ^ f * g / h := by
  simp only [freq_multiplier] at hv
  split_ifs at hv
  cases hfp : fixed_point_int_size_64 f io <;> rw [hfp] at hv <;>
    simp only [RustResult.bind] at hv
  · rename_i isz
    obtain ⟨hf0, hf64, hisz, _⟩ := fixed_point_int_size_64_ok hfp
    split_ifs at hv with hov
    cases hv
    have hlt : 2 ^ f * g / h < 2 ^ 128 := pow_mul_div_lt g f hg hf64 h
    have hfit : ¬ (2 ^ (isz + f) ≤ 2 ^ f * g / h) := by
      intro hge
      rw [(fixed_point_overflow_eq_true_iff _ _ _ hlt hisz).mpr hge] at hov
      exact hov rfl
    have hle : 2 ^ f * g / h < 2 ^ (isz + f) := by omega
    have hle2 : (2 : Nat) ^ (isz + f) ≤ 2 ^ 64 := Nat.pow_le_pow_right (by norm_num) hisz
    exact Nat.mod_eq_of_lt (by omega)
  · exact RustResult.noConfusion hv
  · exact RustResult.noConfusion hv

lemma shiftRight_lt_two_pow_128 {a b f : Nat} (ha : a < 2 ^ 64) (hb : b < 2 ^ 64) :
    (a * b) >>> f < 2 ^ 128 := by
  rw [Nat.shiftRight_eq_div_pow]
  have h2 : a ≤ 2 ^ 64 - 1 := by omega
  have h3 : b ≤ 2 ^ 64 - 1 := by omega
  have h4 := Nat.mul_le_mul h2 h3
  have h5 : ((2 : Nat) ^ 64 - 1) * (2 ^ 64 - 1) < 2 ^ 128 := by norm_num
  have h6 := Nat.div_le_self (a * b) (2 ^ f)
  omega

/-- Value of a successful calc_tsc_offset: the offset is initial_guest_tsc
minus the scaled initial host TSC, and that scaled value fits 64 bits. -/
lemma calc_tsc_offset_ok {ih ig m f : Nat} {io : Option Nat} {off : Int}
    (hih : ih < 2 ^ 64) (hm : m < 2 ^ 64)
    (h : calc_tsc_offset ih ig m f io = .ok off) :
    off = (ig : Int) - (((ih * m) >>> f : Nat) : Int) ∧ (ih * m) >>> f < 2 ^ 64 := by
  set s := (ih * m) >>> f with hs
  have hbound : s < 2 ^ 128 := shiftRight_lt_two_pow_128 hih hm
  simp only [calc_tsc_offset, ← hs] at h
  clear_value s
  clear hs
  cases hfp : fixed_point_int_size_64 f io <;> rw [hfp] at h <;>
    simp only [RustResult.bind] at h
  · by_cases hov : overflow_64 s = true
    · rw [if_pos hov] at h
      exact RustResult.noConfusion h
    · rw [if_neg hov] at h
      have hov2 : overflow_64 s = false := by
        revert hov
        cases overflow_64 s <;> simp
      have hlt := (overflow_64_eq_false_iff _ hbound).mp hov2
      have hmod : s % 2 ^ 64 = s := Nat.mod_eq_of_lt hlt
      rw [hmod] at h
      refine ⟨?_, hlt⟩
      by_cases hge : s ≥ ig
      · rw [if_pos hge] at h
        simp at h
        split_ifs at h
        cases h
        omega
      · rw [if_neg hge] at h
        simp at h
        split_ifs at h
        cases h
        omega
  · exact RustResult.noConfusion h
  · exact RustResult.noConfusion h

/-! ### Claim C1 -/

/-- Claim C1, counterexample. The claim states that a successful
tsc_offset / calc_tsc_offset with host_tsc_scaled ≥ initial_guest_tsc returns
+(host_tsc_scaled - initial_guest_tsc). With initial_host_tsc = 2,
initial_guest_tsc = 0, equal frequencies and 56.8 format, host_tsc_scaled is 2
and 2 ≥ 0, so the claim predicts +2; the code returns -2 (the source sets
negate to true in that branch, matching its own comment
TSC offset = - (host_tsc * ratio - guest_tsc)). -/
theorem claim_c1_counterexample :
    tsc_offset 2 0 1000 1000 8 none = RustResult.ok (-2) ∧ (-2 : Int) ≠ 2 := by
  constructor
  · decide
  · decide

/-- Claim C1, amended: when calc_tsc_offset succeeds, the returned offset has
the signs flipped relative to the claim: it equals
-(host_tsc_scaled - initial_guest_tsc) when host_tsc_scaled ≥
initial_guest_tsc, and +(initial_guest_tsc - host_tsc_scaled) otherwise,
i.e. always initial_guest_tsc - host_tsc_scaled as a signed value, where
host_tsc_scaled = (initial_host_tsc * multiplier) >>> frac_size. -/
theorem claim_c1_amended (ih ig m f : Nat) (io : Option Nat) (off : Int)
    (hih : ih < 2 ^ 64) (hm : m < 2 ^ 64)
    (h : calc_tsc_offset ih ig m f io = .ok off) :
    ((ih * m) >>> f ≥ ig → off = -((((ih * m) >>> f : Nat) : Int) - (ig : Int))) ∧
    ((ih * m) >>> f < ig → off = (ig : Int) - (((ih * m) >>> f : Nat) : Int)) := by
  obtain ⟨hoff, hlt⟩ := calc_tsc_offset_ok hih hm h
  set s := (ih * m) >>> f with hs
  clear_value s
  clear hs
  omega

/-- Witness for claim C1 as amended, at initial_host_tsc = 2,
initial_guest_tsc = 0, multiplier = 256, 8 fractional bits. -/
theorem claim_c1_amended_witness :
    ((2 * 256) >>> 8 ≥ (0 : Nat) →
      (-2 : Int) = -((((2 * 256) >>> 8 : Nat) : Int) - ((0 : Nat) : Int))) ∧
    ((2 * 256) >>> 8 < (0 : Nat) →
      (-2 : Int) = ((0 : Nat) : Int) - (((2 * 256) >>> 8 : Nat) : Int)) :=
  claim_c1_amended 2 0 256 8 none (-2) (by decide) (by decide) (by decide)

/-! ### Claim C2 -/

/-- Claim C2: continuity at the anchor. Whenever
guest_tsc ih ig hf gf ih fmt succeeds, its value is exactly the initial guest
TSC ig. In particular, when a destination host seeds initial_guest_tsc with
the guest TSC computed on the source host, evaluating guest_tsc on the
destination at its own initial host TSC returns the seeded value, so a
migration is observably transparent. -/
theorem claim_c2 (ih ig hf gf f : Nat) (io : Option Nat) (v : Nat)
    (hih : ih < 2 ^ 64) (hig : ig < 2 ^ 64)
    (h : guest_tsc ih ig hf gf ih f io = .ok v) : v = ig := by
  simp only [guest_tsc] at h
  cases hfm : freq_multiplier gf hf f io <;> rw [hfm] at h <;>
    simp only [RustResult.bind] at h
  · rename_i fm
    have hfmlt := freq_multiplier_ok_lt hfm
    cases hco : calc_tsc_offset ih ig fm f io <;> rw [hco] at h <;>
      simp only [RustResult.bind] at h
    · rename_i off
      obtain ⟨hoff, hslt⟩ := calc_tsc_offset_ok hih hfmlt hco
      cases hfp : fixed_point_int_size_64 f io <;> rw [hfp] at h <;>
        simp only [RustResult.bind] at h
      · split_ifs at h
        cases h
        subst hoff
        have hsum : (((ih * fm) >>> f : Nat) : Int) + ((ig : Int) - ((ih * fm) >>> f : Nat)) = (ig : Int) := by
          ring
        rw [hsum]
        omega
      · exact RustResult.noConfusion h
      · exact RustResult.noConfusion h
    · exact RustResult.noConfusion h
    · exact RustResult.noConfusion h
  · exact RustResult.noConfusion h
  · exact RustResult.noConfusion h

set_option maxRecDepth 8192 in
/-- Witness for claim C2 at ih = 5, ig = 7, equal frequencies, 56.8 format:
the successful call returns exactly 7. -/
theorem claim_c2_witness :
    guest_tsc 5 7 1000 1000 5 8 none = RustResult.ok 7 ∧ (7 : Nat) = 7 :=
  ⟨by decide, claim_c2 5 7 1000 1000 8 none 7 (by decide) (by decide) (by decide)⟩

/-! ### Claim C4 -/

/-- Claim C4, counterexample. The claim states the resolver fails (with an
InvalidFormat error, not an uncontrolled fault) exactly when frac_bits = 0,
frac_bits ≥ 64, int_bits = 0 (when supplied), or int_bits + frac_bits > 64.
The code accepts a supplied int_bits of 0: with frac_bits = 32 and
int_bits = some 0 it succeeds and resolves int_bits to 0, and its failure
mode elsewhere is an assert panic, never an error value. -/
theorem claim_c4_counterexample :
    fixed_point_int_size_64 32 (some 0) = RustResult.ok 0 ∧
    RustResult.ok 0 ≠ (RustResult.error : RustResult Nat) := by
  constructor
  · decide
  · decide

/-- Claim C4, amended: the resolver never returns an error value; it panics
(failed assert, an uncontrolled fault) exactly when frac_bits = 0,
frac_bits ≥ 64, or int_bits + frac_bits > 64 with int_bits defaulting to
64 - frac_bits; otherwise it returns the resolved int_bits. A supplied
int_bits of 0 is not rejected. -/
theorem claim_c4_amended (f : Nat) (io : Option Nat) :
    (fixed_point_int_size_64 f io ≠ RustResult.error) ∧
    (fixed_point_int_size_64 f io = RustResult.panic ↔
      (f = 0 ∨ 64 ≤ f ∨ 64 < io.getD (64 - f) + f)) ∧
    (f ≠ 0 → f < 64 → io.getD (64 - f) + f ≤ 64 →
      fixed_point_int_size_64 f io = RustResult.ok (io.getD (64 - f))) := by
  rw [fixed_point_int_size_64_eq]
  refine ⟨?_, ?_, ?_⟩
  · split_ifs with hc
    · simp
    · simp
  · split_ifs with hc
    · constructor
      · intro hx
        exact absurd hx (by simp)
      · intro hx
        omega
    · constructor
      · intro _
        omega
      · intro _
        rfl
  · intro h1 h2 h3
    split_ifs with hc
    · rfl
    · omega

/-- Witness for claim C4 as amended, at frac_bits = 32 with int_bits 8. -/
theorem claim_c4_amended_witness :
    (fixed_point_int_size_64 32 (some 8) ≠ RustResult.error) ∧
    fixed_point_int_size_64 32 (some 8) = RustResult.ok ((some 8).getD (64 - 32)) :=
  ⟨(claim_c4_amended 32 (some 8)).1,
    (claim_c4_amended 32 (some 8)).2.2 (by decide) (by decide) (by decide)⟩

/-! ### Claim C5 -/

/-- Claim C5: a successful freq_multiplier returns exactly
floor((guest_frequency * 2 ^ frac_bits) / host_frequency); the intermediate
product is computed at 128-bit width and never wraps for u32 frequencies, and
the division truncates toward zero. -/
theorem claim_c5 (gf hf f : Nat) (io : Option Nat) (v : Nat) (hgf : gf < 2 ^ 32)
    (h : freq_multiplier gf hf f io = .ok v) : v = 2 ^ f * gf / hf :=
  freq_multiplier_ok_val hgf h

/-- Witness for claim C5 with the three ratio round-trip examples of the
claim: 1000/2000 at 8 fractional bits, 2000/3000 at 8 fractional bits, and
1000/1000 in the AMD 8.32 format. -/
theorem claim_c5_witness :
    freq_multiplier 1000 2000 8 none = RustResult.ok 0b10000000 ∧
    (0b10000000 : Nat) = 2 ^ 8 * 1000 / 2000 ∧
    freq_multiplier 2000 3000 8 none = RustResult.ok 0b10101010 ∧
    freq_multiplier 1000 1000 32 (some 8) = RustResult.ok (1 <<< 32) :=
  ⟨by decide, claim_c5 1000 2000 8 none 0b10000000 (by decide) (by decide),
    by decide, by decide⟩

/-! ### Claim C6 -/

/-- Claim C6: freq_multiplier fails with its RatioOverflow error exactly when
the computed 128-bit multiplier floor((2 ^ frac_bits * guest) / host) has a
bit at position at least int_bits + frac_bits, i.e. is at least
2 ^ (int_bits + frac_bits). The resolved int_bits is the supplied one, or
64 - frac_bits when omitted. -/
theorem claim_c6 (gf hf f : Nat) (io : Option Nat)
    (hgf0 : 0 < gf) (hhf0 : 0 < hf) (hgf : gf < 2 ^ 32)
    (hf0 : 0 < f) (hf64 : f < 64)
    (hio : io.getD (64 - f) + f ≤ 64) :
    freq_multiplier gf hf f io = RustResult.error ↔
      2 ^ (io.getD (64 - f) + f) ≤ 2 ^ f * gf / hf := by
  have hfp : fixed_point_int_size_64 f io = .ok (io.getD (64 - f)) := by
    rw [fixed_point_int_size_64_eq, if_pos ⟨hf0, hf64, hio⟩]
  simp only [freq_multiplier]
  rw [if_neg (by omega), if_neg (by omega), hfp]
  simp only [RustResult.bind]
  have hlt : 2 ^ f * gf / hf < 2 ^ 128 := pow_mul_div_lt gf f hgf hf64 hf
  have hiff :=
    fixed_point_overflow_eq_true_iff (2 ^ f * gf / hf) (io.getD (64 - f)) f hlt hio
  constructor
  · intro he
    split_ifs at he with hov
    exact hiff.mp hov
  · intro hge
    rw [if_pos (hiff.mpr hge)]

/-- Witness for claim C6 at the claim's overflow boundary: in the 1.63 format
a guest/host ratio of 2.0 overflows while 1.999 fits. -/
theorem claim_c6_witness :
    freq_multiplier 2000 1000 63 (some 1) = RustResult.error ∧
    freq_multiplier 1999 1000 63 (some 1) ≠ RustResult.error :=
  ⟨(claim_c6 2000 1000 63 (some 1) (by decide) (by decide) (by decide) (by decide)
      (by decide) (by decide)).mpr (by decide),
    fun h =>
      absurd ((claim_c6 1999 1000 63 (some 1) (by decide) (by decide) (by decide)
        (by decide) (by decide) (by decide)).mp h) (by decide)⟩

/-! ### Claim C7 -/

/-- Claim C7: scale identity. Scaling any 64-bit counter with the multiplier
1 <<< frac_bits (ratio exactly 1.0), i.e. (tsc * (1 <<< frac_bits)) >>>
frac_bits in 128-bit precision as done inside calc_tsc_offset and guest_tsc,
returns the counter unchanged, and the overflow_64 check never fires on the
result. -/
theorem claim_c7 (t f : Nat) (ht : t < 2 ^ 64) (_hf0 : 0 < f) (_hf64 : f < 64) :
    (t * (1 <<< f)) >>> f = t ∧ overflow_64 ((t * (1 <<< f)) >>> f) = false := by
  have h1 : (1 : Nat) <<< f = 2 ^ f := by
    rw [Nat.shiftLeft_eq, Nat.one_mul]
  have h2 : (t * (1 <<< f)) >>> f = t := by
    rw [h1, Nat.shiftRight_eq_div_pow]
    exact Nat.mul_div_cancel t (Nat.two_pow_pos f)
  refine ⟨h2, ?_⟩
  rw [h2]
  exact (overflow_64_eq_false_iff t (by omega)).mpr ht

/-- Witness for claim C7 at counter 5 and 8 fractional bits. -/
theorem claim_c7_witness :
    (5 * (1 <<< 8)) >>> 8 = 5 ∧ overflow_64 ((5 * (1 <<< 8)) >>> 8) = false :=
  claim_c7 5 8 (by decide) (by decide) (by decide)

/-! ### Claim C8 -/

lemma freq_multiplier_ne_panic {gf hf f isz : Nat} {io : Option Nat}
    (hgf0 : 0 < gf) (hhf0 : 0 < hf)
    (hfp : fixed_point_int_size_64 f io = .ok isz) :
    freq_multiplier gf hf f io ≠ RustResult.panic := by
  simp only [freq_multiplier]
  rw [if_neg (by omega), if_neg (by omega), hfp]
  simp only [RustResult.bind]
  split_ifs <;> simp

lemma calc_tsc_offset_ne_panic {ih ig m f isz : Nat} {io : Option Nat}
    (hfp : fixed_point_int_size_64 f io = .ok isz) :
    calc_tsc_offset ih ig m f io ≠ RustResult.panic := by
  simp only [calc_tsc_offset]
  rw [hfp]
  simp only [RustResult.bind]
  split_ifs <;> simp

lemma tsc_offset_ne_panic {ih ig gf hf f isz : Nat} {io : Option Nat}
    (hgf0 : 0 < gf) (hhf0 : 0 < hf)
    (hfp : fixed_point_int_size_64 f io = .ok isz) :
    tsc_offset ih ig gf hf f io ≠ RustResult.panic := by
  simp only [tsc_offset]
  cases hfm : freq_multiplier gf hf f io <;> simp only [RustResult.bind]
  · exact calc_tsc_offset_ne_panic hfp
  · simp
  · exact absurd hfm (freq_multiplier_ne_panic hgf0 hhf0 hfp)

lemma guest_tsc_ne_panic {ih ig hf gf ch f isz : Nat} {io : Option Nat}
    (hgf0 : 0 < gf) (hhf0 : 0 < hf)
    (hfp : fixed_point_int_size_64 f io = .ok isz) :
    guest_tsc ih ig hf gf ch f io ≠ RustResult.panic := by
  simp only [guest_tsc]
  cases hfm : freq_multiplier gf hf f io <;> simp only [RustResult.bind]
  · rename_i fm
    cases hco : calc_tsc_offset ih ig fm f io <;> simp only [RustResult.bind]
    · rw [hfp]
      simp only [RustResult.bind]
      split_ifs <;> simp
    · simp
    · exact absurd hco (calc_tsc_offset_ne_panic hfp)
  · simp
  · exact absurd hfm (freq_multiplier_ne_panic hgf0 hhf0 hfp)

/-- Claim C8: no false panics. For positive frequencies and a valid fixed
point split (frac_bits in 1..63 and resolved int_bits + frac_bits at most
64), freq_multiplier, tsc_offset and guest_tsc always return either a value
or a declared error, never a panic, for every choice of the u64 TSC inputs. -/
theorem claim_c8 (gf hf f ih ig ch : Nat) (io : Option Nat)
    (hgf0 : 0 < gf) (hhf0 : 0 < hf) (hf0 : 0 < f) (hf64 : f < 64)
    (hio : io.getD (64 - f) + f ≤ 64) :
    freq_multiplier gf hf f io ≠ RustResult.panic ∧
    tsc_offset ih ig gf hf f io ≠ RustResult.panic ∧
    guest_tsc ih ig hf gf ch f io ≠ RustResult.panic := by
  have hfp : fixed_point_int_size_64 f io = .ok (io.getD (64 - f)) := by
    rw [fixed_point_int_size_64_eq, if_pos ⟨hf0, hf64, hio⟩]
  exact ⟨freq_multiplier_ne_panic hgf0 hhf0 hfp,
    tsc_offset_ne_panic hgf0 hhf0 hfp,
    guest_tsc_ne_panic hgf0 hhf0 hfp⟩

/-- Witness for claim C8 in the AMD 8.32 format at equal kHz frequencies. -/
theorem claim_c8_witness :
    freq_multiplier 1000 1000 32 (some 8) ≠ RustResult.panic ∧
    tsc_offset 1 2 1000 1000 32 (some 8) ≠ RustResult.panic ∧
    guest_tsc 1 2 1000 1000 3 32 (some 8) ≠ RustResult.panic :=
  claim_c8 1000 1000 32 1 2 3 (some 8) (by decide) (by decide) (by decide)
    (by decide) (by decide)

/-! ### Claim C9 -/

/-- Claim C9: the hrtime and tsc conversion helpers truncate their 128-bit
product to 64 bits before dividing, so whenever the product reaches 2 ^ 64
they silently return the wrapped quotient Ok((product mod 2 ^ 64) / divisor)
rather than an error; and hrtime with a zero frequency does not return at all
(division by zero is a fault outside the declared error taxonomy). -/
theorem claim_c9 :
    (∀ t fz, fz ≠ 0 → 2 ^ 64 ≤ t * NS_PER_SEC →
      hrtime t fz = RustResult.ok (t * NS_PER_SEC % 2 ^ 64 / fz)) ∧
    (∀ t, hrtime t 0 = RustResult.panic) ∧
    (∀ ht fz, 2 ^ 64 ≤ ht * fz →
      tsc ht fz = RustResult.ok (ht * fz % 2 ^ 64 / NS_PER_SEC)) := by
  refine ⟨?_, ?_, ?_⟩
  · intro t fz h0 _
    simp only [hrtime]
    rw [if_neg h0]
  · intro t
    simp [hrtime]
  · intro ht fz _
    simp only [tsc]

/-- Witness for claim C9: a counter whose nanosecond product wraps, the
division-by-zero fault, and a wrapping tsc conversion. -/
theorem claim_c9_witness :
    hrtime (2 ^ 60) 5 = RustResult.ok (2 ^ 60 * NS_PER_SEC % 2 ^ 64 / 5) ∧
    hrtime 3 0 = RustResult.panic ∧
    tsc (2 ^ 40) (2 ^ 40) = RustResult.ok (2 ^ 40 * 2 ^ 40 % 2 ^ 64 / NS_PER_SEC) :=
  ⟨claim_c9.1 (2 ^ 60) 5 (by decide) (by decide),
    claim_c9.2.1 3,
    claim_c9.2.2 (2 ^ 40) (2 ^ 40) (by decide)⟩

/-! ### Claim C10 -/

/-- Claim C10: tsc_incr adds one second of host ticks, freq_khz * 1000, with
unchecked u64 addition: below 2 ^ 64 it returns exactly the sum, and on
overflow it faults (debug) or wraps (release) but never returns a declared
error, leaving the simulator's time-advance step outside the engine's
overflow-error taxonomy. -/
theorem claim_c10 (t fz : Nat) :
    tsc_incr t fz ≠ RustResult.error ∧
    (t + fz * HZ_PER_KHZ < 2 ^ 64 →
      tsc_incr t fz = RustResult.ok (t + fz * HZ_PER_KHZ)) ∧
    (2 ^ 64 ≤ t + fz * HZ_PER_KHZ → tsc_incr t fz = RustResult.panic) := by
  simp only [tsc_incr]
  refine ⟨?_, ?_, ?_⟩
  · split_ifs <;> simp
  · intro h
    rw [if_pos h]
  · intro h
    rw [if_neg (by omega)]

/-- Witness for claim C10: a sum below 2 ^ 64 returns the sum, the maximal
u64 counter plus one second of ticks faults. -/
theorem claim_c10_witness :
    tsc_incr 0 1 = RustResult.ok (0 + 1 * HZ_PER_KHZ) ∧
    tsc_incr (2 ^ 64 - 1) 1 = RustResult.panic :=
  ⟨(claim_c10 0 1).2.1 (by decide), (claim_c10 (2 ^ 64 - 1) 1).2.2 (by decide)⟩

/-! ### Claim C3 -/

/-- Specification of the time points the simulator visits, written from the
amended claim: each segment contributes the closed range from its start to
its end (the next segment's start, or the duration for the last segment),
i.e. end + 1 - start consecutive time values. -/
def simTimesSpec (duration : Nat) : List HostDef → List Nat
  | [] => []
  | h :: rest =>
    let endT := match rest with
      | [] => duration
      | h2 :: _ => h2.start
    List.range' h.start (endT + 1 - h.start) 1 ++ simTimesSpec duration rest

/-- Specification of the host TSC column, written from the amended claim: in
each segment the host TSC starts at the segment's host_tsc and advances by
host_freq * HZ_PER_KHZ (the tsc_incr step) once per time unit. -/
def simHostTscsSpec (duration : Nat) : List HostDef → List Nat
  | [] => []
  | h :: rest =>
    let endT := match rest with
      | [] => duration
      | h2 :: _ => h2.start
    List.range' h.host_tsc (endT + 1 - h.start) (h.host_freq * HZ_PER_KHZ) ++
      simHostTscsSpec duration rest

lemma simSegment_ok_rows (shtsc sgtsc hhz ghz f : Nat) (io : Option Nat) :
    ∀ (n t chtsc cgtsc : Nat) (rows : List (Nat × Nat × Nat)) (g : Nat),
      simSegment shtsc sgtsc hhz ghz f io t chtsc cgtsc n = .ok (rows, g) →
      rows.map (fun r => r.1) = List.range' t n 1 ∧
      rows.map (fun r => r.2.2) = List.range' chtsc n (hhz * HZ_PER_KHZ) := by
  intro n
  induction n with
  | zero =>
    intro t chtsc cgtsc rows g h
    simp only [simSegment] at h
    cases h
    simp
  | succ n ih =>
    intro t chtsc cgtsc rows g h
    simp only [simSegment] at h
    cases hg : guest_tsc shtsc sgtsc hhz ghz chtsc f io <;> rw [hg] at h <;>
      simp only [RustResult.bind] at h
    · rename_i g0
      cases hti : tsc_incr chtsc hhz <;> rw [hti] at h <;>
        simp only [RustResult.bind] at h
      · rename_i nh
        cases hrec : simSegment shtsc sgtsc hhz ghz f io (t + 1) nh g0 n with
        | ok pr =>
          obtain ⟨rows2, g2⟩ := pr
          rw [hrec] at h
          simp only [RustResult.bind] at h
          cases h
          obtain ⟨h1, h2⟩ := ih _ _ _ _ _ hrec
          have hnh : nh = chtsc + hhz * HZ_PER_KHZ := by
            simp only [tsc_incr] at hti
            split_ifs at hti
            cases hti
            rfl
          constructor
          · simp only [List.map_cons, h1, List.range'_succ]
          · simp only [List.map_cons, h2, hnh, List.range'_succ]
        | error =>
          rw [hrec] at h
          simp only [RustResult.bind] at h
          exact RustResult.noConfusion h
        | panic =>
          rw [hrec] at h
          simp only [RustResult.bind] at h
          exact RustResult.noConfusion h
      · exact RustResult.noConfusion h
      · exact RustResult.noConfusion h
    · exact RustResult.noConfusion h
    · exact RustResult.noConfusion h

lemma cmd_simulate_hosts_ok_rows (duration ghz f : Nat) (io : Option Nat) :
    ∀ (hs : List HostDef) (cg : Nat) (rows : List (Nat × Nat × Nat)),
      cmd_simulate_hosts duration ghz f io cg hs = .ok rows →
      rows.map (fun r => r.1) = simTimesSpec duration hs ∧
      rows.map (fun r => r.2.2) = simHostTscsSpec duration hs := by
  intro hs
  induction hs with
  | nil =>
    intro cg rows h
    simp only [cmd_simulate_hosts] at h
    cases h
    simp [simTimesSpec, simHostTscsSpec]
  | cons hd rest ih =>
    intro cg rows h
    simp only [cmd_simulate_hosts] at h
    set endT := (match rest with | [] => duration | h2 :: _ => h2.start) with hendT
    clear_value endT
    cases hseg : simSegment hd.host_tsc cg hd.host_freq ghz f io hd.start hd.host_tsc
        cg (endT + 1 - hd.start) with
    | ok pr =>
      obtain ⟨rows1, g1⟩ := pr
      rw [hseg] at h
      simp only [RustResult.bind] at h
      cases hrest : cmd_simulate_hosts duration ghz f io g1 rest with
      | ok rows2 =>
        rw [hrest] at h
        simp only [RustResult.bind] at h
        cases h
        obtain ⟨h1, h2⟩ := simSegment_ok_rows hd.host_tsc cg hd.host_freq ghz f io
          _ _ _ _ _ _ hseg
        obtain ⟨h3, h4⟩ := ih g1 rows2 hrest
        constructor
        · simp only [simTimesSpec, ← hendT, List.map_append, h1, h3]
        · simp only [simHostTscsSpec, ← hendT, List.map_append, h2, h4]
      | error =>
        rw [hrest] at h
        simp only [RustResult.bind] at h
        exact RustResult.noConfusion h
      | panic =>
        rw [hrest] at h
        simp only [RustResult.bind] at h
        exact RustResult.noConfusion h
    | error =>
      rw [hseg] at h
      simp only [RustResult.bind] at h
      exact RustResult.noConfusion h
    | panic =>
      rw [hseg] at h
      simp only [RustResult.bind] at h
      exact RustResult.noConfusion h

set_option maxRecDepth 16384 in
/-- Claim C3, counterexample. The claim states the simulator evaluates the
guest TSC only for t in the half-open range from a segment's start to its
end. With one host, duration 2, host TSC 0 and frequency 1000, the claimed
range would be the two time points 0 and 1; the code iterates the inclusive
range `start..=end` and produces three rows, including one at t = 2 = end.
The trace also shows the per-step host TSC advance is
host_freq * 1000 = 1000000 rather than host_freq. -/
theorem claim_c3_counterexample :
    cmd_simulate 2 1000 [⟨0, 0, 1000⟩] Arch.amd =
      RustResult.ok [(0, 0, 0), (1, 1000000, 1000000), (2, 2000000, 2000000)] ∧
    ¬ (2 : Nat) < 2 := by
  constructor
  · decide
  · decide

/-- Claim C3, amended: for each segment the simulator evaluates the guest TSC
once per unit of time t for t in the closed range from start to end
inclusive, where end is the next segment's start time (so the boundary time
is evaluated in both adjacent segments) or the total duration for the last
segment; after each evaluation it advances current_host_tsc by
host_freq * 1000 host ticks via tsc_incr (one second's worth when the
frequency is taken in kHz, although main.rs supplies these fields in Hz). -/
theorem claim_c3_amended (duration ghz : Nat) (hosts : List HostDef) (arch : Arch)
    (rows : List (Nat × Nat × Nat))
    (h : cmd_simulate duration ghz hosts arch = .ok rows) :
    rows.map (fun r => r.1) = simTimesSpec duration hosts ∧
    rows.map (fun r => r.2.2) = simHostTscsSpec duration hosts := by
  simp only [cmd_simulate] at h
  split_ifs at h
  cases arch <;> simp only at h <;>
    exact cmd_simulate_hosts_ok_rows duration ghz _ _ hosts 0 rows h

set_option maxRecDepth 16384 in
/-- Witness for claim C3 as amended, on the one-host simulation of duration
2: the visited times are 0, 1, 2 and the host TSC column advances by
1000 * 1000 per step. -/
theorem claim_c3_amended_witness :
    ([(0, 0, 0), (1, 1000000, 1000000), (2, 2000000, 2000000)]
        : List (Nat × Nat × Nat)).map (fun r => r.1) =
      simTimesSpec 2 [⟨0, 0, 1000⟩] ∧
    ([(0, 0, 0), (1, 1000000, 1000000), (2, 2000000, 2000000)]
        : List (Nat × Nat × Nat)).map (fun r => r.2.2) =
      simHostTscsSpec 2 [⟨0, 0, 1000⟩] :=
  claim_c3_amended 2 1000 [⟨0, 0, 1000⟩] Arch.amd
    [(0, 0, 0), (1, 1000000, 1000000), (2, 2000000, 2000000)] (by decide)

end TscSimulator
